import Mathlib

/-!
Shallow embedding of the link-verification and reconciliation engine of
`src/fixer.py` (classes `FixerConfig`, `FixerStats`, `LinkChecker`,
`DataValidator`, `FixerBot`).  Catalog records are Firestore documents;
field values are modelled explicitly, including the Firestore sentinels
`DELETE_FIELD` and `SERVER_TIMESTAMP`.  The network transport is an
oracle `String → HttpResult` so that probe outcomes can be quantified
over; wall-clock time is an oracle `Nat → Nat` giving the elapsed time
observed before each dispatch.
-/

/-- Value written into a Firestore update map by the fixer: a plain string,
the `firestore.DELETE_FIELD` sentinel, or the `firestore.SERVER_TIMESTAMP`
sentinel (src/fixer.py lines 311-331). -/
inductive FieldValue where
  | str : String → FieldValue
  | deleteField : FieldValue
  | serverTimestamp : FieldValue
deriving DecidableEq, Repr

/-- A catalog record ("book" document).  Fields the engine reads or writes
(src/fixer.py lines 227-331).  `none` models an absent Firestore field;
`some ""` models a present but empty one. -/
structure Book where
  bangla_title : Option String := none
  english_title : Option String := none
  author : Option String := none
  category : Option String := none
  download_url : Option String := none
  status : Option String := none
  error_message : Option String := none
  last_checked : Option Nat := none
  last_fixer_run : Option String := none
deriving DecidableEq, Repr

/-- `FixerConfig` dataclass (src/fixer.py lines 41-74), with the defaults of
the dataclass.  Times are in seconds, the rate-limit delay in milliseconds. -/
structure FixerConfig where
  request_timeout : Nat := 15
  retry_attempts : Nat := 3
  rate_limit_delay_ms : Nat := 500
  max_workers : Nat := 4
  enable_parallel : Bool := true
  check_interval_days : Nat := 7
  enable_smart_filter : Bool := true
  batch_size : Option Nat := none
  max_execution_time : Nat := 300
  default_category : String := "উপন্যাস"
  default_status : String := "published"
  required_fields : List String := ["bangla_title", "category", "download_url", "status"]
  verbose : Bool := true
deriving DecidableEq, Repr

/-- `FixerStats` dataclass (src/fixer.py lines 76-86). -/
structure FixerStats where
  total_scanned : Nat := 0
  working_links : Nat := 0
  broken_links : Nat := 0
  fixed_records : Nat := 0
  skipped_records : Nat := 0
  errors : Nat := 0
  timeout_stop : Bool := false
deriving DecidableEq, Repr

/-- Python truthiness of an optional string field: present and non-empty.
Models `if field not in book_data or not book_data[field]` and
`if pdf_url:` guards. -/
def truthy : Option String → Bool
  | some s => decide (s ≠ "")
  | none => false

/-- Dictionary access `book_data.get(f)` for the field names the engine
touches. -/
def getField (b : Book) (f : String) : Option String :=
  if f = "bangla_title" then b.bangla_title
  else if f = "english_title" then b.english_title
  else if f = "author" then b.author
  else if f = "category" then b.category
  else if f = "download_url" then b.download_url
  else if f = "status" then b.status
  else if f = "error_message" then b.error_message
  else none

/-- Whitespace stripped by Python's `str.strip()` (space, tab, newline,
carriage return, vertical tab, form feed). -/
def pyIsSpace (c : Char) : Bool :=
  c == ' ' || c == '\t' || c == '\n' || c == '\r' || c.toNat == 11 || c.toNat == 12

/-- Python `str.strip()`: drop leading and trailing whitespace. -/
def pystrip (s : String) : String :=
  String.mk (((s.toList.dropWhile pyIsSpace).reverse.dropWhile pyIsSpace).reverse)

/-- Python `dict` assignment `d[k] = v`: replace the value in place if the
key exists, else append the pair. -/
def dictInsert (m : List (String × FieldValue)) (k : String) (v : FieldValue) :
    List (String × FieldValue) :=
  match m with
  | [] => [(k, v)]
  | (k', v') :: rest => if k' = k then (k', v) :: rest else (k', v') :: dictInsert rest k v

/-- Python `dict` lookup `d.get(k)`. -/
def dictLookup (k : String) (m : List (String × FieldValue)) : Option FieldValue :=
  match m with
  | [] => none
  | (k', v) :: rest => if k' = k then some v else dictLookup k rest

/-- The keys of an update dictionary. -/
def dictKeys (m : List (String × FieldValue)) : List String :=
  m.map Prod.fst

/-- Python `d1.update(d2)`: insert every pair of `d2` into `d1`, overwriting
values of keys already present. -/
def dictUpdate (m m2 : List (String × FieldValue)) : List (String × FieldValue) :=
  m2.foldl (fun acc kv => dictInsert acc kv.1 kv.2) m

/-- The possible outcomes of the transport call `session.head(url, ...)`
after the adapter's internal retries: a final HTTP response with some
status code, a `requests.Timeout`, a `requests.ConnectionError`, or any
other exception (src/fixer.py lines 194-210). -/
inductive HttpResult where
  | status : Nat → HttpResult
  | timeout : HttpResult
  | connError : HttpResult
  | otherError : String → HttpResult
deriving DecidableEq, Repr

/-- `LinkChecker.check_link` (src/fixer.py lines 185-210): returns
`(is_working, error_message)`.  An absent or empty URL short-circuits to
`(false, "URL missing")` without consulting the transport. -/
def check_link (t : String → HttpResult) (url : Option String) : Bool × Option String :=
  match url with
  | none => (false, some "URL missing")
  | some s =>
    if s = "" then (false, some "URL missing")
    else
      match t s with
      | HttpResult.status c =>
        if c = 200 then (true, none)
        else (false, some ("Status code: " ++ toString c))
      | HttpResult.timeout => (false, some "Request timeout")
      | HttpResult.connError => (false, some "Connection error")
      | HttpResult.otherError e =>
        (false, some ("Unknown error: " ++ String.mk (e.toList.take 50)))

/-- One iteration of the required-fields loop of
`DataValidator.validate_book` (src/fixer.py lines 234-241): a missing or
empty required field gets a default only when it is `category` or
`status`. -/
def requiredFieldStep (cfg : FixerConfig) (b : Book)
    (u : List (String × FieldValue)) (f : String) : List (String × FieldValue) :=
  if truthy (getField b f) = false then
    if f = "category" then dictInsert u "category" (FieldValue.str cfg.default_category)
    else if f = "status" then dictInsert u "status" (FieldValue.str cfg.default_status)
    else u
  else u

/-- One trim block of `DataValidator.validate_book` (src/fixer.py lines
243-259): a present, non-empty text field whose stripped form differs is
replaced by the stripped form. -/
def trimStep (u : List (String × FieldValue)) (key : String) (v : Option String) :
    List (String × FieldValue) :=
  match v with
  | some s => if s ≠ "" ∧ pystrip s ≠ s then dictInsert u key (FieldValue.str (pystrip s)) else u
  | none => u

/-- `DataValidator.validate_book` (src/fixer.py lines 227-261). -/
def validate_book (cfg : FixerConfig) (b : Book) : List (String × FieldValue) :=
  let u := cfg.required_fields.foldl (requiredFieldStep cfg b) []
  let u := trimStep u "bangla_title" b.bangla_title
  let u := trimStep u "english_title" b.english_title
  let u := trimStep u "author" b.author
  u

/-- The link-check phase of `FixerBot.process_book` (src/fixer.py lines
304-323): `none` when the record's `download_url` is absent or empty (no
probe is made), otherwise the probe's `is_working` flag. -/
def linkOutcome (t : String → HttpResult) (b : Book) : Option Bool :=
  if truthy b.download_url then some (check_link t b.download_url).1 else none

/-- The edits produced by the link-check phase of `FixerBot.process_book`
(src/fixer.py lines 304-323): `status`/`error_message` set on a broken
link; `status` restored and `error_message` deleted when a previously
broken link works again; nothing when the probe succeeds on a
not-previously-broken record or when no probe is made. -/
def linkEdits (t : String → HttpResult) (b : Book) : List (String × FieldValue) :=
  if truthy b.download_url then
    let r := check_link t b.download_url
    if r.1 = false then
      dictInsert (dictInsert [] "status" (FieldValue.str "broken"))
        "error_message" (FieldValue.str (r.2.getD ""))
    else if b.status = some "broken" then
      let u := dictInsert [] "status" (FieldValue.str "published")
      if b.error_message.isSome then dictInsert u "error_message" FieldValue.deleteField else u
    else []
  else []

/-- The full update dictionary computed by `FixerBot.process_book`
(src/fixer.py lines 302-331): link edits, overwritten by the validator's
edits via `updates.update(data_updates)`, then the unconditional
`last_checked = SERVER_TIMESTAMP` and `last_fixer_run = now` entries. -/
def updatesOf (cfg : FixerConfig) (t : String → HttpResult) (nowIso : String)
    (b : Book) : List (String × FieldValue) :=
  let updates := dictUpdate (linkEdits t b) (validate_book cfg b)
  let updates := dictInsert updates "last_checked" FieldValue.serverTimestamp
  dictInsert updates "last_fixer_run" (FieldValue.str nowIso)

/-- The statistics updates of the scan phase of `FixerBot.process_book`
(src/fixer.py lines 295-317): `total_scanned` always increments, then
`broken_links` or `working_links` increments exactly when a probe was
made. -/
def scanStats (t : String → HttpResult) (st : FixerStats) (b : Book) : FixerStats :=
  let st := { st with total_scanned := st.total_scanned + 1 }
  match linkOutcome t b with
  | some false => { st with broken_links := st.broken_links + 1 }
  | some true => { st with working_links := st.working_links + 1 }
  | none => st

/-- Result of processing one record: the statistics after the record, the
computed update dictionary, and whether a catalog write was performed. -/
structure ProcessResult where
  stats : FixerStats
  updates : List (String × FieldValue)
  written : Bool
deriving DecidableEq, Repr

/-- `FixerBot.process_book` (src/fixer.py lines 290-348).  `writeFault`
models the Firestore `update` call raising: the `except` block then
increments `errors` instead of `fixed_records` (the link/validator work
before the write, including the `total_scanned` increment, has already
happened).  With a non-empty update dictionary the record is written and
counted fixed; an empty one is counted skipped with no write. -/
def process_book (cfg : FixerConfig) (t : String → HttpResult) (nowIso : String)
    (writeFault : Bool) (st : FixerStats) (b : Book) : ProcessResult :=
  let st := scanStats t st b
  let updates := updatesOf cfg t nowIso b
  if updates = [] then
    { stats := { st with skipped_records := st.skipped_records + 1 },
      updates := updates, written := false }
  else if writeFault then
    { stats := { st with errors := st.errors + 1 }, updates := updates, written := false }
  else
    { stats := { st with fixed_records := st.fixed_records + 1 },
      updates := updates, written := true }

/-- Statistics effect of processing one dispatched record (a record paired
with whether its catalog write faults). -/
def runStep (cfg : FixerConfig) (t : String → HttpResult) (nowIso : String)
    (st : FixerStats) (d : Book × Bool) : FixerStats :=
  (process_book cfg t nowIso d.2 st d.1).stats

/-- Processing a list of dispatched records in order, with no deadline
(the bodies of the loops of `run_serial` / `run_parallel`,
src/fixer.py lines 369-401). -/
def processAll (cfg : FixerConfig) (t : String → HttpResult) (nowIso : String)
    (st : FixerStats) (docs : List (Book × Bool)) : FixerStats :=
  docs.foldl (runStep cfg t nowIso) st

/-- The dispatch loops of `FixerBot.run_serial` and `FixerBot.run_parallel`
(src/fixer.py lines 369-401) together with `_should_stop_execution`
(lines 278-288): before dispatching each record the elapsed wall-clock
time is compared against `max_execution_time`; on reaching it the loop
breaks after setting `timeout_stop`.  `elapsed i` is the elapsed time
observed before dispatch number `i`.  Returns the final statistics and
the number of records actually dispatched. -/
def runDocs (cfg : FixerConfig) (t : String → HttpResult) (nowIso : String)
    (elapsed : Nat → Nat) : Nat → FixerStats → List (Book × Bool) → FixerStats × Nat
  | _, st, [] => (st, 0)
  | i, st, d :: rest =>
    if cfg.max_execution_time ≤ elapsed i then
      ({ st with timeout_stop := true }, 0)
    else
      let st2 := runStep cfg t nowIso st d
      let r := runDocs cfg t nowIso elapsed (i + 1) st2 rest
      (r.1, r.2 + 1)

/-- Firestore range-filter semantics for `where('last_checked', '<', c)`:
a range filter matches only documents in which the field exists and
satisfies the comparison; documents missing the field never match. -/
def firestoreLt (v : Option Nat) (cutoff : Nat) : Bool :=
  match v with
  | some x => decide (x < cutoff)
  | none => false

/-- `FixerBot._get_query` (src/fixer.py lines 350-367) applied to a
catalog: with smart filtering, keep the records matching
`last_checked < now - check_interval_days`; then apply the optional
batch-size limit.  `now` is in seconds. -/
def get_query_docs (cfg : FixerConfig) (now : Nat) (books : List Book) : List Book :=
  let docs :=
    if cfg.enable_smart_filter then
      books.filter (fun b => firestoreLt b.last_checked (now - cfg.check_interval_days * 86400))
    else books
  match cfg.batch_size with
  | some n => docs.take n
  | none => docs

/-- Applying one update-dictionary entry to a record, with Firestore
field-update semantics (`str` sets the field, `deleteField` removes it,
`serverTimestamp` sets the server time `serverNow`). -/
def applyEdit (serverNow : Nat) (b : Book) (k : String) (v : FieldValue) : Book :=
  if k = "bangla_title" then
    match v with
    | FieldValue.str s => { b with bangla_title := some s }
    | _ => b
  else if k = "english_title" then
    match v with
    | FieldValue.str s => { b with english_title := some s }
    | _ => b
  else if k = "author" then
    match v with
    | FieldValue.str s => { b with author := some s }
    | _ => b
  else if k = "category" then
    match v with
    | FieldValue.str s => { b with category := some s }
    | _ => b
  else if k = "download_url" then
    match v with
    | FieldValue.str s => { b with download_url := some s }
    | _ => b
  else if k = "status" then
    match v with
    | FieldValue.str s => { b with status := some s }
    | _ => b
  else if k = "error_message" then
    match v with
    | FieldValue.str s => { b with error_message := some s }
    | FieldValue.deleteField => { b with error_message := none }
    | _ => b
  else if k = "last_checked" then
    match v with
    | FieldValue.serverTimestamp => { b with last_checked := some serverNow }
    | _ => b
  else if k = "last_fixer_run" then
    match v with
    | FieldValue.str s => { b with last_fixer_run := some s }
    | _ => b
  else b

/-- Reconciliation: applying a whole update dictionary to a record. -/
def applyEdits (serverNow : Nat) (b : Book) (es : List (String × FieldValue)) : Book :=
  es.foldl (fun bb kv => applyEdit serverNow bb kv.1 kv.2) b

/-- A record is normalized for `cfg`: every required field is present and
non-empty, and every text field the validator trims is already in
stripped form. -/
def normalizedBook (cfg : FixerConfig) (b : Book) : Bool :=
  cfg.required_fields.all (fun f => truthy (getField b f)) &&
    (match b.bangla_title with | some s => pystrip s == s | none => true) &&
    (match b.english_title with | some s => pystrip s == s | none => true) &&
    (match b.author with | some s => pystrip s == s | none => true)

/-! ### Concrete fixtures used by witnesses and counterexamples -/

/-- Mocked transport whose every probe receives a final HTTP 200 response. -/
def t200 : String → HttpResult := fun _ => HttpResult.status 200

/-- Mocked transport whose every probe receives a final HTTP 204 response
(a 2xx status that is not 200). -/
def t204 : String → HttpResult := fun _ => HttpResult.status 204

/-- A fully normalized record with a working URL (the spec's concrete
"good URL" scenario record, completed so the validator has nothing to
correct). -/
def c2book : Book :=
  { bangla_title := some "Valo Boi", category := some "Novel",
    download_url := some "https://good.example/x.pdf", status := some "published" }

/-- The spec's concrete empty-URL scenario record, with the other required
fields filled in. -/
def c3book : Book :=
  { bangla_title := some "Valo Boi", category := some "Novel",
    download_url := some "", status := some "published" }

/-- A record with a working URL used in a run where the catalog write
faults. -/
def c4book : Book :=
  { bangla_title := some "Boi", category := some "Novel",
    download_url := some "https://good.example/z.pdf", status := some "published" }

/-- A record whose `bangla_title` is present but empty. -/
def c5book : Book :=
  { bangla_title := some "", category := some "Novel",
    download_url := some "https://good.example/x.pdf", status := some "published" }

/-- A record with a working URL and no `status` field at all. -/
def c6book : Book :=
  { bangla_title := some "Valo Boi", category := some "Novel",
    download_url := some "https://good.example/x.pdf" }

/-- A record used to exercise the deadline scenario. -/
def c8book : Book :=
  { bangla_title := some "Boi", category := some "Novel",
    download_url := some "https://slow.example/a.pdf", status := some "published" }

/-- An already-normalized record for the idempotence scenario. -/
def c9book : Book :=
  { bangla_title := some "Shera Boi", category := some "Golpo",
    download_url := some "https://ok.example/y.pdf", status := some "published" }

/-- A record that has never been checked: no `last_checked` field. -/
def c1neverBook : Book :=
  { download_url := some "https://a.example/b.pdf", status := some "published" }

/-- A record last checked at time 100, far older than any realistic
cutoff. -/
def c1oldBook : Book :=
  { download_url := some "https://a.example/c.pdf", status := some "published",
    last_checked := some 100 }

/-! ### Dictionary lemmas -/

theorem dictInsert_ne_nil (m : List (String × FieldValue)) (k : String) (v : FieldValue) :
    dictInsert m k v ≠ [] := by
  cases m with
  | nil => simp [dictInsert]
  | cons hd tl =>
    obtain ⟨k', v'⟩ := hd
    simp only [dictInsert]
    split <;> simp

theorem mem_keys_dictInsert (m : List (String × FieldValue)) (k : String) (v : FieldValue)
    (a : String) : a ∈ dictKeys (dictInsert m k v) ↔ a ∈ dictKeys m ∨ a = k := by
  induction m with
  | nil => simp [dictInsert, dictKeys]
  | cons hd tl ih =>
    obtain ⟨k', v'⟩ := hd
    by_cases hk : k' = k
    · subst hk
      simp [dictInsert, dictKeys]
      tauto
    · simp only [dictInsert, if_neg hk, dictKeys, List.map_cons, List.mem_cons] at ih ⊢
      rw [show List.map Prod.fst (dictInsert tl k v) = dictKeys (dictInsert tl k v) from rfl,
        show List.map Prod.fst tl = dictKeys tl from rfl] at *
      rw [ih]
      tauto

theorem dictLookup_dictInsert_self (m : List (String × FieldValue)) (k : String)
    (v : FieldValue) : dictLookup k (dictInsert m k v) = some v := by
  induction m with
  | nil => simp [dictInsert, dictLookup]
  | cons hd tl ih =>
    obtain ⟨k', v'⟩ := hd
    by_cases hk : k' = k
    · subst hk
      simp [dictInsert, dictLookup]
    · simp [dictInsert, if_neg hk, dictLookup, hk, ih]

theorem dictLookup_dictInsert_ne (m : List (String × FieldValue)) (k : String)
    (v : FieldValue) (a : String) (h : a ≠ k) :
    dictLookup a (dictInsert m k v) = dictLookup a m := by
  induction m with
  | nil => simp [dictInsert, dictLookup, Ne.symm h]
  | cons hd tl ih =>
    obtain ⟨k', v'⟩ := hd
    by_cases hk : k' = k
    · subst hk
      simp [dictInsert, dictLookup, Ne.symm h]
    · simp only [dictInsert, if_neg hk, dictLookup]
      split <;> simp [ih]

theorem dictLookup_eq_none_iff (m : List (String × FieldValue)) (a : String) :
    dictLookup a m = none ↔ a ∉ dictKeys m := by
  induction m with
  | nil => simp [dictLookup, dictKeys]
  | cons hd tl ih =>
    obtain ⟨k', v'⟩ := hd
    by_cases hk : k' = a
    · subst hk
      simp [dictLookup, dictKeys]
    · simp only [dictLookup, if_neg hk, dictKeys, List.map_cons, List.mem_cons]
      rw [show List.map Prod.fst tl = dictKeys tl from rfl]
      rw [ih]
      constructor
      · intro hn
        rintro (h1 | h2)
        · exact hk h1.symm
        · exact hn h2
      · intro hn h2
        exact hn (Or.inr h2)

theorem nodup_keys_dictInsert (m : List (String × FieldValue)) (k : String) (v : FieldValue)
    (h : (dictKeys m).Nodup) : (dictKeys (dictInsert m k v)).Nodup := by
  induction m with
  | nil => simp [dictInsert, dictKeys]
  | cons hd tl ih =>
    obtain ⟨k', v'⟩ := hd
    simp only [dictKeys, List.map_cons, List.nodup_cons] at h
    rw [show List.map Prod.fst tl = dictKeys tl from rfl] at h
    by_cases hk : k' = k
    · subst hk
      simp only [dictInsert, if_true]
      simp only [dictKeys, List.map_cons, List.nodup_cons]
      rw [show List.map Prod.fst tl = dictKeys tl from rfl]
      exact ⟨h.1, h.2⟩
    · simp only [dictInsert, if_neg hk, dictKeys, List.map_cons, List.nodup_cons]
      refine ⟨?_, ih h.2⟩
      intro hmem
      rw [show List.map Prod.fst (dictInsert tl k v) = dictKeys (dictInsert tl k v) from rfl]
        at hmem
      rcases (mem_keys_dictInsert tl k v k').mp hmem with h1 | h2
      · exact h.1 h1
      · exact hk h2

theorem mem_keys_dictUpdate (m m2 : List (String × FieldValue)) (a : String) :
    a ∈ dictKeys (dictUpdate m m2) ↔ a ∈ dictKeys m ∨ a ∈ dictKeys m2 := by
  induction m2 generalizing m with
  | nil => simp [dictUpdate, dictKeys]
  | cons hd tl ih =>
    obtain ⟨k, v⟩ := hd
    show a ∈ dictKeys (dictUpdate (dictInsert m k v) tl) ↔ _
    rw [ih, mem_keys_dictInsert]
    simp only [dictKeys, List.map_cons, List.mem_cons]
    rw [show List.map Prod.fst tl = dictKeys tl from rfl]
    tauto

theorem nodup_keys_dictUpdate (m m2 : List (String × FieldValue))
    (h : (dictKeys m).Nodup) : (dictKeys (dictUpdate m m2)).Nodup := by
  induction m2 generalizing m with
  | nil => exact h
  | cons hd tl ih =>
    obtain ⟨k, v⟩ := hd
    show (dictKeys (dictUpdate (dictInsert m k v) tl)).Nodup
    exact ih _ (nodup_keys_dictInsert m k v h)

theorem dictLookup_dictUpdate (m m2 : List (String × FieldValue)) (a : String)
    (h : (dictKeys m2).Nodup) :
    dictLookup a (dictUpdate m m2) =
      match dictLookup a m2 with
      | some v => some v
      | none => dictLookup a m := by
  induction m2 generalizing m with
  | nil => simp [dictUpdate, dictLookup]
  | cons hd tl ih =>
    obtain ⟨k, v⟩ := hd
    simp only [dictKeys, List.map_cons, List.nodup_cons] at h
    rw [show List.map Prod.fst tl = dictKeys tl from rfl] at h
    show dictLookup a (dictUpdate (dictInsert m k v) tl) = _
    rw [ih _ h.2]
    by_cases hk : k = a
    · subst hk
      have hnone : dictLookup k tl = none := (dictLookup_eq_none_iff tl k).mpr h.1
      rw [hnone, dictLookup_dictInsert_self]
      simp [dictLookup]
    · cases hlk : dictLookup a tl with
      | some w => simp [dictLookup, if_neg hk, hlk]
      | none => simp [dictLookup, if_neg hk, hlk,
          dictLookup_dictInsert_ne m k v a (Ne.symm hk)]

/-! ### Validator lemmas -/

theorem lookup_requiredFieldStep_category (cfg : FixerConfig) (b : Book)
    (u : List (String × FieldValue)) (f : String) :
    dictLookup "category" (requiredFieldStep cfg b u f) =
      if f = "category" ∧ truthy b.category = false then
        some (FieldValue.str cfg.default_category)
      else dictLookup "category" u := by
  simp only [requiredFieldStep]
  by_cases hf : f = "category"
  · subst hf
    by_cases ht : truthy b.category = false
    · rw [if_pos (show truthy (getField b "category") = false from ht),
        if_pos (show "category" = "category" from rfl),
        dictLookup_dictInsert_self, if_pos ⟨rfl, ht⟩]
    · rw [if_neg (show ¬ truthy (getField b "category") = false from ht),
        if_neg (show ¬ ("category" = "category" ∧ truthy b.category = false) from
          fun hcon => ht hcon.2)]
  · rw [if_neg (show ¬ (f = "category" ∧ truthy b.category = false) from
      fun hcon => hf hcon.1)]
    by_cases ht2 : truthy (getField b f) = false
    · rw [if_pos ht2, if_neg hf]
      by_cases hs : f = "status"
      · subst hs
        rw [if_pos (show "status" = "status" from rfl)]
        exact dictLookup_dictInsert_ne u "status" _ "category" (by decide)
      · rw [if_neg hs]
    · rw [if_neg ht2]

theorem lookup_requiredFieldStep_status (cfg : FixerConfig) (b : Book)
    (u : List (String × FieldValue)) (f : String) :
    dictLookup "status" (requiredFieldStep cfg b u f) =
      if f = "status" ∧ truthy b.status = false then
        some (FieldValue.str cfg.default_status)
      else dictLookup "status" u := by
  simp only [requiredFieldStep]
  by_cases hf : f = "status"
  · subst hf
    by_cases ht : truthy b.status = false
    · rw [if_pos (show truthy (getField b "status") = false from ht),
        if_neg (show ¬ "status" = "category" by decide),
        if_pos (show "status" = "status" from rfl),
        dictLookup_dictInsert_self, if_pos ⟨rfl, ht⟩]
    · rw [if_neg (show ¬ truthy (getField b "status") = false from ht),
        if_neg (show ¬ ("status" = "status" ∧ truthy b.status = false) from
          fun hcon => ht hcon.2)]
  · rw [if_neg (show ¬ (f = "status" ∧ truthy b.status = false) from
      fun hcon => hf hcon.1)]
    by_cases ht2 : truthy (getField b f) = false
    · rw [if_pos ht2]
      by_cases hc : f = "category"
      · subst hc
        rw [if_pos (show "category" = "category" from rfl)]
        exact dictLookup_dictInsert_ne u "category" _ "status" (by decide)
      · rw [if_neg hc, if_neg hf]
    · rw [if_neg ht2]

theorem lookup_requiredFieldStep_other (cfg : FixerConfig) (b : Book)
    (u : List (String × FieldValue)) (f : String) (a : String)
    (hc : a ≠ "category") (hs : a ≠ "status") :
    dictLookup a (requiredFieldStep cfg b u f) = dictLookup a u := by
  simp only [requiredFieldStep]
  split
  · split
    · exact dictLookup_dictInsert_ne u "category" _ a hc
    · split
      · exact dictLookup_dictInsert_ne u "status" _ a hs
      · rfl
  · rfl

theorem lookup_foldl_required_category (cfg : FixerConfig) (b : Book)
    (fields : List String) (acc : List (String × FieldValue)) :
    dictLookup "category" (fields.foldl (requiredFieldStep cfg b) acc) =
      if "category" ∈ fields ∧ truthy b.category = false then
        some (FieldValue.str cfg.default_category)
      else dictLookup "category" acc := by
  induction fields generalizing acc with
  | nil => simp
  | cons f rest ih =>
    rw [List.foldl_cons, ih, lookup_requiredFieldStep_category]
    by_cases ht : truthy b.category = false
    · by_cases hmem : "category" ∈ rest
      · rw [if_pos ⟨hmem, ht⟩, if_pos ⟨List.mem_cons_of_mem f hmem, ht⟩]
      · rw [if_neg (show ¬ ("category" ∈ rest ∧ truthy b.category = false) from
          fun hcon => hmem hcon.1)]
        by_cases hf : f = "category"
        · subst hf
          rw [if_pos ⟨rfl, ht⟩, if_pos ⟨List.mem_cons_self _ _, ht⟩]
        · rw [if_neg (show ¬ (f = "category" ∧ truthy b.category = false) from
            fun hcon => hf hcon.1)]
          rw [if_neg ?_]
          simp only [List.mem_cons]
          rintro ⟨h1 | h2, -⟩
          · exact hf h1.symm
          · exact hmem h2
    · rw [if_neg (fun hcon => ht hcon.2), if_neg (fun hcon => ht hcon.2),
        if_neg (fun hcon => ht hcon.2)]

theorem lookup_foldl_required_status (cfg : FixerConfig) (b : Book)
    (fields : List String) (acc : List (String × FieldValue)) :
    dictLookup "status" (fields.foldl (requiredFieldStep cfg b) acc) =
      if "status" ∈ fields ∧ truthy b.status = false then
        some (FieldValue.str cfg.default_status)
      else dictLookup "status" acc := by
  induction fields generalizing acc with
  | nil => simp
  | cons f rest ih =>
    rw [List.foldl_cons, ih, lookup_requiredFieldStep_status]
    by_cases ht : truthy b.status = false
    · by_cases hmem : "status" ∈ rest
      · rw [if_pos ⟨hmem, ht⟩, if_pos ⟨List.mem_cons_of_mem f hmem, ht⟩]
      · rw [if_neg (show ¬ ("status" ∈ rest ∧ truthy b.status = false) from
          fun hcon => hmem hcon.1)]
        by_cases hf : f = "status"
        · subst hf
          rw [if_pos ⟨rfl, ht⟩, if_pos ⟨List.mem_cons_self _ _, ht⟩]
        · rw [if_neg (show ¬ (f = "status" ∧ truthy b.status = false) from
            fun hcon => hf hcon.1)]
          rw [if_neg ?_]
          simp only [List.mem_cons]
          rintro ⟨h1 | h2, -⟩
          · exact hf h1.symm
          · exact hmem h2
    · rw [if_neg (fun hcon => ht hcon.2), if_neg (fun hcon => ht hcon.2),
        if_neg (fun hcon => ht hcon.2)]

theorem lookup_foldl_required_other (cfg : FixerConfig) (b : Book)
    (fields : List String) (acc : List (String × FieldValue)) (a : String)
    (hc : a ≠ "category") (hs : a ≠ "status") :
    dictLookup a (fields.foldl (requiredFieldStep cfg b) acc) = dictLookup a acc := by
  induction fields generalizing acc with
  | nil => rfl
  | cons f rest ih =>
    rw [List.foldl_cons, ih, lookup_requiredFieldStep_other cfg b acc f a hc hs]

theorem lookup_trimStep_ne (u : List (String × FieldValue)) (key : String)
    (v : Option String) (a : String) (h : a ≠ key) :
    dictLookup a (trimStep u key v) = dictLookup a u := by
  cases v with
  | none => rfl
  | some s =>
    simp only [trimStep]
    split
    · exact dictLookup_dictInsert_ne u key _ a h
    · rfl

theorem lookup_validate_category (cfg : FixerConfig) (b : Book) :
    dictLookup "category" (validate_book cfg b) =
      if "category" ∈ cfg.required_fields ∧ truthy b.category = false then
        some (FieldValue.str cfg.default_category)
      else none := by
  simp only [validate_book]
  rw [lookup_trimStep_ne _ _ _ _ (by decide), lookup_trimStep_ne _ _ _ _ (by decide),
    lookup_trimStep_ne _ _ _ _ (by decide), lookup_foldl_required_category]
  rfl

theorem lookup_validate_status (cfg : FixerConfig) (b : Book) :
    dictLookup "status" (validate_book cfg b) =
      if "status" ∈ cfg.required_fields ∧ truthy b.status = false then
        some (FieldValue.str cfg.default_status)
      else none := by
  simp only [validate_book]
  rw [lookup_trimStep_ne _ _ _ _ (by decide), lookup_trimStep_ne _ _ _ _ (by decide),
    lookup_trimStep_ne _ _ _ _ (by decide), lookup_foldl_required_status]
  rfl

theorem lookup_validate_other (cfg : FixerConfig) (b : Book) (a : String)
    (hc : a ≠ "category") (hs : a ≠ "status") (h1 : a ≠ "bangla_title")
    (h2 : a ≠ "english_title") (h3 : a ≠ "author") :
    dictLookup a (validate_book cfg b) = none := by
  simp only [validate_book]
  rw [lookup_trimStep_ne _ _ _ _ h3, lookup_trimStep_ne _ _ _ _ h2,
    lookup_trimStep_ne _ _ _ _ h1, lookup_foldl_required_other cfg b _ _ a hc hs]
  rfl

theorem nodup_keys_requiredFieldStep (cfg : FixerConfig) (b : Book)
    (u : List (String × FieldValue)) (f : String) (h : (dictKeys u).Nodup) :
    (dictKeys (requiredFieldStep cfg b u f)).Nodup := by
  simp only [requiredFieldStep]
  split
  · split
    · exact nodup_keys_dictInsert _ _ _ h
    · split
      · exact nodup_keys_dictInsert _ _ _ h
      · exact h
  · exact h

theorem nodup_keys_trimStep (u : List (String × FieldValue)) (key : String)
    (v : Option String) (h : (dictKeys u).Nodup) : (dictKeys (trimStep u key v)).Nodup := by
  cases v with
  | none => exact h
  | some s =>
    simp only [trimStep]
    split
    · exact nodup_keys_dictInsert _ _ _ h
    · exact h

theorem nodup_keys_validate (cfg : FixerConfig) (b : Book) :
    (dictKeys (validate_book cfg b)).Nodup := by
  simp only [validate_book]
  apply nodup_keys_trimStep
  apply nodup_keys_trimStep
  apply nodup_keys_trimStep
  have hfold : ∀ (fields : List String) (acc : List (String × FieldValue)),
      (dictKeys acc).Nodup → (dictKeys (fields.foldl (requiredFieldStep cfg b) acc)).Nodup := by
    intro fields
    induction fields with
    | nil => intro acc h; exact h
    | cons f rest ih =>
      intro acc h
      rw [List.foldl_cons]
      exact ih _ (nodup_keys_requiredFieldStep cfg b acc f h)
  exact hfold cfg.required_fields [] (by simp [dictKeys])

/-! ### Link-edit and update-dictionary lemmas -/

theorem linkEdits_working_not_broken (t : String → HttpResult) (b : Book)
    (hw : (check_link t b.download_url).1 = true) (hb : b.status ≠ some "broken") :
    linkEdits t b = [] := by
  simp only [linkEdits]
  split
  · simp [hw, hb]
  · rfl

theorem lookup_linkEdits_other (t : String → HttpResult) (b : Book) (a : String)
    (h1 : a ≠ "status") (h2 : a ≠ "error_message") :
    dictLookup a (linkEdits t b) = none := by
  simp only [linkEdits]
  split
  · split
    · rw [dictLookup_dictInsert_ne _ _ _ _ h2, dictLookup_dictInsert_ne _ _ _ _ h1]
      rfl
    · split
      · split
        · rw [dictLookup_dictInsert_ne _ _ _ _ h2, dictLookup_dictInsert_ne _ _ _ _ h1]
          rfl
        · rw [dictLookup_dictInsert_ne _ _ _ _ h1]
          rfl
      · rfl
  · rfl

theorem lookup_linkEdits_status (t : String → HttpResult) (b : Book) :
    dictLookup "status" (linkEdits t b) = none ∨
      dictLookup "status" (linkEdits t b) = some (FieldValue.str "broken") ∨
      dictLookup "status" (linkEdits t b) = some (FieldValue.str "published") := by
  simp only [linkEdits]
  split
  · split
    · refine Or.inr (Or.inl ?_)
      rw [dictLookup_dictInsert_ne _ _ _ _ (by decide), dictLookup_dictInsert_self]
    · split
      · refine Or.inr (Or.inr ?_)
        split
        · rw [dictLookup_dictInsert_ne _ _ _ _ (by decide), dictLookup_dictInsert_self]
        · rw [dictLookup_dictInsert_self]
      · exact Or.inl rfl
  · exact Or.inl rfl

theorem nodup_keys_linkEdits (t : String → HttpResult) (b : Book) :
    (dictKeys (linkEdits t b)).Nodup := by
  simp only [linkEdits]
  split
  · split
    · exact (by decide : (["status", "error_message"] : List String).Nodup)
    · split
      · split
        · exact (by decide : (["status", "error_message"] : List String).Nodup)
        · exact (by decide : (["status"] : List String).Nodup)
      · exact (by decide : ([] : List String).Nodup)
  · exact (by decide : ([] : List String).Nodup)

theorem updatesOf_ne_nil (cfg : FixerConfig) (t : String → HttpResult) (nowIso : String)
    (b : Book) : updatesOf cfg t nowIso b ≠ [] := by
  simp only [updatesOf]
  exact dictInsert_ne_nil _ _ _

theorem nodup_keys_updatesOf (cfg : FixerConfig) (t : String → HttpResult) (nowIso : String)
    (b : Book) : (dictKeys (updatesOf cfg t nowIso b)).Nodup := by
  simp only [updatesOf]
  apply nodup_keys_dictInsert
  apply nodup_keys_dictInsert
  exact nodup_keys_dictUpdate _ _ (nodup_keys_linkEdits t b)

theorem mem_keys_updatesOf (cfg : FixerConfig) (t : String → HttpResult) (nowIso : String)
    (b : Book) (a : String) :
    a ∈ dictKeys (updatesOf cfg t nowIso b) ↔
      a ∈ dictKeys (linkEdits t b) ∨ a ∈ dictKeys (validate_book cfg b) ∨
        a = "last_checked" ∨ a = "last_fixer_run" := by
  simp only [updatesOf]
  rw [mem_keys_dictInsert, mem_keys_dictInsert, mem_keys_dictUpdate]
  tauto

theorem download_url_not_mem_updatesOf (cfg : FixerConfig) (t : String → HttpResult)
    (nowIso : String) (b : Book) :
    "download_url" ∉ dictKeys (updatesOf cfg t nowIso b) := by
  intro hmem
  rcases (mem_keys_updatesOf cfg t nowIso b "download_url").mp hmem with h1 | h2 | h3 | h4
  · exact absurd h1 ((dictLookup_eq_none_iff _ _).mp
      (lookup_linkEdits_other t b "download_url" (by decide) (by decide)))
  · exact absurd h2 ((dictLookup_eq_none_iff _ _).mp
      (lookup_validate_other cfg b "download_url" (by decide) (by decide) (by decide)
        (by decide) (by decide)))
  · exact absurd h3 (by decide)
  · exact absurd h4 (by decide)

theorem lookup_updatesOf_category (cfg : FixerConfig) (t : String → HttpResult)
    (nowIso : String) (b : Book) :
    dictLookup "category" (updatesOf cfg t nowIso b) =
      if "category" ∈ cfg.required_fields ∧ truthy b.category = false then
        some (FieldValue.str cfg.default_category)
      else none := by
  simp only [updatesOf]
  rw [dictLookup_dictInsert_ne _ _ _ _ (by decide), dictLookup_dictInsert_ne _ _ _ _ (by decide),
    dictLookup_dictUpdate _ _ _ (nodup_keys_validate cfg b), lookup_validate_category]
  split_ifs with hc
  · rfl
  · exact lookup_linkEdits_other t b "category" (by decide) (by decide)

theorem lookup_updatesOf_status (cfg : FixerConfig) (t : String → HttpResult)
    (nowIso : String) (b : Book) :
    dictLookup "status" (updatesOf cfg t nowIso b) =
      if "status" ∈ cfg.required_fields ∧ truthy b.status = false then
        some (FieldValue.str cfg.default_status)
      else dictLookup "status" (linkEdits t b) := by
  simp only [updatesOf]
  rw [dictLookup_dictInsert_ne _ _ _ _ (by decide), dictLookup_dictInsert_ne _ _ _ _ (by decide),
    dictLookup_dictUpdate _ _ _ (nodup_keys_validate cfg b), lookup_validate_status]
  split_ifs with hc
  · rfl
  · rfl

/-! ### Per-record processing lemmas -/

theorem process_book_updates_eq (cfg : FixerConfig) (t : String → HttpResult)
    (nowIso : String) (f : Bool) (st : FixerStats) (b : Book) :
    (process_book cfg t nowIso f st b).updates = updatesOf cfg t nowIso b := by
  simp only [process_book]
  split
  · rfl
  · split <;> rfl

theorem process_book_stats_eq (cfg : FixerConfig) (t : String → HttpResult)
    (nowIso : String) (f : Bool) (st : FixerStats) (b : Book) :
    (process_book cfg t nowIso f st b).stats =
      if f = true then
        { scanStats t st b with errors := (scanStats t st b).errors + 1 }
      else
        { scanStats t st b with fixed_records := (scanStats t st b).fixed_records + 1 } := by
  simp only [process_book]
  rw [if_neg (updatesOf_ne_nil cfg t nowIso b)]
  by_cases hf : f = true
  · rw [if_pos hf, if_pos hf]
  · rw [if_neg hf, if_neg hf]

theorem process_book_written_eq (cfg : FixerConfig) (t : String → HttpResult)
    (nowIso : String) (f : Bool) (st : FixerStats) (b : Book) :
    (process_book cfg t nowIso f st b).written = !f := by
  simp only [process_book]
  rw [if_neg (updatesOf_ne_nil cfg t nowIso b)]
  cases f with
  | true => rw [if_pos rfl]; rfl
  | false => rw [if_neg (by decide)]; rfl

theorem scanStats_none (t : String → HttpResult) (st : FixerStats) (b : Book)
    (h : linkOutcome t b = none) :
    scanStats t st b = { st with total_scanned := st.total_scanned + 1 } := by
  simp [scanStats, h]

theorem scanStats_some_true (t : String → HttpResult) (st : FixerStats) (b : Book)
    (h : linkOutcome t b = some true) :
    scanStats t st b =
      { st with total_scanned := st.total_scanned + 1,
                working_links := st.working_links + 1 } := by
  simp [scanStats, h]

theorem scanStats_spec (t : String → HttpResult) (st : FixerStats) (b : Book) :
    (scanStats t st b).total_scanned = st.total_scanned + 1 ∧
      (scanStats t st b).fixed_records = st.fixed_records ∧
      (scanStats t st b).skipped_records = st.skipped_records ∧
      (scanStats t st b).errors = st.errors ∧
      (scanStats t st b).timeout_stop = st.timeout_stop ∧
      (scanStats t st b).working_links + (scanStats t st b).broken_links
        ≤ st.working_links + st.broken_links + 1 := by
  cases hlo : linkOutcome t b with
  | none => simp [scanStats, hlo]
  | some v => cases v <;> simp [scanStats, hlo] <;> omega

/-! ### Run-loop lemmas -/

theorem runStep_counts (cfg : FixerConfig) (t : String → HttpResult) (nowIso : String)
    (st : FixerStats) (d : Book × Bool) :
    (runStep cfg t nowIso st d).total_scanned = st.total_scanned + 1 ∧
      (runStep cfg t nowIso st d).working_links + (runStep cfg t nowIso st d).broken_links
        ≤ st.working_links + st.broken_links + 1 ∧
      (runStep cfg t nowIso st d).fixed_records + (runStep cfg t nowIso st d).skipped_records
          + (runStep cfg t nowIso st d).errors
        = st.fixed_records + st.skipped_records + st.errors + 1 := by
  obtain ⟨b, f⟩ := d
  obtain ⟨h1, h2, h3, h4, h5, h6⟩ := scanStats_spec t st b
  simp only [runStep, process_book_stats_eq]
  cases f with
  | true =>
    rw [if_pos rfl]
    dsimp only
    exact ⟨h1, h6, by omega⟩
  | false =>
    rw [if_neg (by decide)]
    dsimp only
    exact ⟨h1, h6, by omega⟩

theorem runStep_skipped (cfg : FixerConfig) (t : String → HttpResult) (nowIso : String)
    (st : FixerStats) (d : Book × Bool) :
    (runStep cfg t nowIso st d).skipped_records = st.skipped_records := by
  obtain ⟨b, f⟩ := d
  obtain ⟨h1, h2, h3, h4, h5, h6⟩ := scanStats_spec t st b
  simp only [runStep, process_book_stats_eq]
  cases f with
  | true => rw [if_pos rfl]; simpa using h3
  | false => rw [if_neg (by decide)]; simpa using h3

theorem runStep_timeout (cfg : FixerConfig) (t : String → HttpResult) (nowIso : String)
    (st : FixerStats) (d : Book × Bool) :
    (runStep cfg t nowIso st d).timeout_stop = st.timeout_stop := by
  obtain ⟨b, f⟩ := d
  obtain ⟨h1, h2, h3, h4, h5, h6⟩ := scanStats_spec t st b
  simp only [runStep, process_book_stats_eq]
  cases f with
  | true => rw [if_pos rfl]; simpa using h5
  | false => rw [if_neg (by decide)]; simpa using h5

theorem runDocs_counts (cfg : FixerConfig) (t : String → HttpResult) (nowIso : String)
    (elapsed : Nat → Nat) (docs : List (Book × Bool)) :
    ∀ (i : Nat) (st : FixerStats),
      (runDocs cfg t nowIso elapsed i st docs).1.working_links
          + (runDocs cfg t nowIso elapsed i st docs).1.broken_links + st.total_scanned
        ≤ st.working_links + st.broken_links
          + (runDocs cfg t nowIso elapsed i st docs).1.total_scanned ∧
      (runDocs cfg t nowIso elapsed i st docs).1.fixed_records
          + (runDocs cfg t nowIso elapsed i st docs).1.skipped_records
          + (runDocs cfg t nowIso elapsed i st docs).1.errors + st.total_scanned
        = st.fixed_records + st.skipped_records + st.errors
          + (runDocs cfg t nowIso elapsed i st docs).1.total_scanned := by
  induction docs with
  | nil =>
    intro i st
    simp [runDocs]
  | cons d rest ih =>
    intro i st
    simp only [runDocs]
    split
    · dsimp only
      constructor <;> omega
    · dsimp only
      obtain ⟨s1, s2, s3⟩ := runStep_counts cfg t nowIso st d
      obtain ⟨i1, i2⟩ := ih (i + 1) (runStep cfg t nowIso st d)
      constructor
      · omega
      · omega

theorem runDocs_skipped (cfg : FixerConfig) (t : String → HttpResult) (nowIso : String)
    (elapsed : Nat → Nat) (docs : List (Book × Bool)) :
    ∀ (i : Nat) (st : FixerStats),
      (runDocs cfg t nowIso elapsed i st docs).1.skipped_records = st.skipped_records := by
  induction docs with
  | nil => intro i st; rfl
  | cons d rest ih =>
    intro i st
    simp only [runDocs]
    split
    · rfl
    · rw [ih (i + 1) (runStep cfg t nowIso st d), runStep_skipped]

theorem runDocs_dispatch_spec (cfg : FixerConfig) (t : String → HttpResult) (nowIso : String)
    (elapsed : Nat → Nat) (docs : List (Book × Bool)) :
    ∀ (i : Nat) (st : FixerStats),
      (runDocs cfg t nowIso elapsed i st docs).2 ≤ docs.length ∧
      (∀ j, j < (runDocs cfg t nowIso elapsed i st docs).2 →
        elapsed (i + j) < cfg.max_execution_time) ∧
      ((runDocs cfg t nowIso elapsed i st docs).2 < docs.length →
        cfg.max_execution_time ≤ elapsed (i + (runDocs cfg t nowIso elapsed i st docs).2) ∧
        (runDocs cfg t nowIso elapsed i st docs).1 =
          { processAll cfg t nowIso st (docs.take (runDocs cfg t nowIso elapsed i st docs).2)
            with timeout_stop := true }) ∧
      ((runDocs cfg t nowIso elapsed i st docs).2 = docs.length →
        (runDocs cfg t nowIso elapsed i st docs).1 = processAll cfg t nowIso st docs) := by
  induction docs with
  | nil =>
    intro i st
    refine ⟨Nat.le_refl 0, ?_, ?_, ?_⟩
    · intro j hj
      exact absurd hj (Nat.not_lt_zero j)
    · intro hlt
      exact absurd hlt (Nat.lt_irrefl 0)
    · intro _
      rfl
  | cons d rest ih =>
    intro i st
    simp only [runDocs]
    split
    · refine ⟨Nat.zero_le _, ?_, ?_, ?_⟩
      · intro j hj
        exact absurd hj (Nat.not_lt_zero j)
      · intro _
        constructor
        · simpa using ‹cfg.max_execution_time ≤ elapsed i›
        · rfl
      · intro h0
        simp at h0
    · obtain ⟨i1, i2, i3, i4⟩ := ih (i + 1) (runStep cfg t nowIso st d)
      set rr := runDocs cfg t nowIso elapsed (i + 1) (runStep cfg t nowIso st d) rest with hrr
      refine ⟨by simpa using Nat.succ_le_succ i1, ?_, ?_, ?_⟩
      · intro j hj
        cases j with
        | zero =>
          simpa using Nat.lt_of_not_le ‹¬ cfg.max_execution_time ≤ elapsed i›
        | succ jj =>
          have hjj : jj < rr.2 := by simpa using Nat.lt_of_succ_lt_succ hj
          have harith : i + (jj + 1) = (i + 1) + jj := by omega
          rw [harith]
          exact i2 jj hjj
      · intro hlt
        have hlt2 : rr.2 < rest.length := by simpa using Nat.lt_of_succ_lt_succ hlt
        obtain ⟨ha, hb⟩ := i3 hlt2
        constructor
        · have harith : i + (rr.2 + 1) = (i + 1) + rr.2 := by omega
          simpa [harith] using ha
        · show rr.1 = _
          rw [hb]
          have htake : (d :: rest).take (rr.2 + 1) = d :: rest.take rr.2 := rfl
          have hpa : processAll cfg t nowIso st ((d :: rest).take (rr.2 + 1))
              = processAll cfg t nowIso (runStep cfg t nowIso st d) (rest.take rr.2) := by
            rw [htake]
            rfl
          rw [hpa]
      · intro heq
        have heq2 : rr.2 = rest.length := by simpa using heq
        show rr.1 = _
        rw [i4 heq2]
        rfl

/-! ### Reconciliation (applyEdits) lemmas -/

theorem applyEdit_category_ne (n : Nat) (b : Book) (k : String) (v : FieldValue)
    (h : k ≠ "category") : (applyEdit n b k v).category = b.category := by
  simp only [applyEdit]
  split_ifs <;> first | rfl | (cases v <;> rfl)

theorem applyEdit_status_ne (n : Nat) (b : Book) (k : String) (v : FieldValue)
    (h : k ≠ "status") : (applyEdit n b k v).status = b.status := by
  simp only [applyEdit]
  split_ifs <;> first | rfl | (cases v <;> rfl)

theorem applyEdit_download_url_ne (n : Nat) (b : Book) (k : String) (v : FieldValue)
    (h : k ≠ "download_url") : (applyEdit n b k v).download_url = b.download_url := by
  simp only [applyEdit]
  split_ifs <;> first | rfl | (cases v <;> rfl)

theorem applyEdits_category_not_mem (n : Nat) (es : List (String × FieldValue)) :
    ∀ b : Book, "category" ∉ dictKeys es → (applyEdits n b es).category = b.category := by
  induction es with
  | nil => intro b _; rfl
  | cons kv rest ih =>
    intro b h
    obtain ⟨k, v⟩ := kv
    simp only [dictKeys, List.map_cons, List.mem_cons, not_or] at h
    rw [show List.map Prod.fst rest = dictKeys rest from rfl] at h
    show (applyEdits n (applyEdit n b k v) rest).category = b.category
    rw [ih _ h.2, applyEdit_category_ne n b k v (fun hk => h.1 hk.symm)]

theorem applyEdits_status_not_mem (n : Nat) (es : List (String × FieldValue)) :
    ∀ b : Book, "status" ∉ dictKeys es → (applyEdits n b es).status = b.status := by
  induction es with
  | nil => intro b _; rfl
  | cons kv rest ih =>
    intro b h
    obtain ⟨k, v⟩ := kv
    simp only [dictKeys, List.map_cons, List.mem_cons, not_or] at h
    rw [show List.map Prod.fst rest = dictKeys rest from rfl] at h
    show (applyEdits n (applyEdit n b k v) rest).status = b.status
    rw [ih _ h.2, applyEdit_status_ne n b k v (fun hk => h.1 hk.symm)]

theorem applyEdits_download_url_not_mem (n : Nat) (es : List (String × FieldValue)) :
    ∀ b : Book, "download_url" ∉ dictKeys es →
      (applyEdits n b es).download_url = b.download_url := by
  induction es with
  | nil => intro b _; rfl
  | cons kv rest ih =>
    intro b h
    obtain ⟨k, v⟩ := kv
    simp only [dictKeys, List.map_cons, List.mem_cons, not_or] at h
    rw [show List.map Prod.fst rest = dictKeys rest from rfl] at h
    show (applyEdits n (applyEdit n b k v) rest).download_url = b.download_url
    rw [ih _ h.2, applyEdit_download_url_ne n b k v (fun hk => h.1 hk.symm)]

theorem applyEdits_category_lookup (n : Nat) (es : List (String × FieldValue)) :
    ∀ (b : Book) (s : String), (dictKeys es).Nodup →
      dictLookup "category" es = some (FieldValue.str s) →
      (applyEdits n b es).category = some s := by
  induction es with
  | nil =>
    intro b s _ hl
    exact absurd hl (by simp [dictLookup])
  | cons kv rest ih =>
    intro b s hnd hl
    obtain ⟨k, v⟩ := kv
    simp only [dictKeys, List.map_cons, List.nodup_cons] at hnd
    rw [show List.map Prod.fst rest = dictKeys rest from rfl] at hnd
    by_cases hk : k = "category"
    · subst hk
      have hv : v = FieldValue.str s := by
        simpa [dictLookup] using hl
      subst hv
      show (applyEdits n (applyEdit n b "category" (FieldValue.str s)) rest).category = some s
      rw [applyEdits_category_not_mem n rest _ hnd.1]
      rfl
    · have hl2 : dictLookup "category" rest = some (FieldValue.str s) := by
        simpa [dictLookup, hk] using hl
      show (applyEdits n (applyEdit n b k v) rest).category = some s
      exact ih _ s hnd.2 hl2

theorem applyEdits_status_lookup (n : Nat) (es : List (String × FieldValue)) :
    ∀ (b : Book) (s : String), (dictKeys es).Nodup →
      dictLookup "status" es = some (FieldValue.str s) →
      (applyEdits n b es).status = some s := by
  induction es with
  | nil =>
    intro b s _ hl
    exact absurd hl (by simp [dictLookup])
  | cons kv rest ih =>
    intro b s hnd hl
    obtain ⟨k, v⟩ := kv
    simp only [dictKeys, List.map_cons, List.nodup_cons] at hnd
    rw [show List.map Prod.fst rest = dictKeys rest from rfl] at hnd
    by_cases hk : k = "status"
    · subst hk
      have hv : v = FieldValue.str s := by
        simpa [dictLookup] using hl
      subst hv
      show (applyEdits n (applyEdit n b "status" (FieldValue.str s)) rest).status = some s
      rw [applyEdits_status_not_mem n rest _ hnd.1]
      rfl
    · have hl2 : dictLookup "status" rest = some (FieldValue.str s) := by
        simpa [dictLookup, hk] using hl
      show (applyEdits n (applyEdit n b k v) rest).status = some s
      exact ih _ s hnd.2 hl2

/-! ### Normalized records and the validator -/

theorem trimStep_of_stripped (u : List (String × FieldValue)) (key : String)
    (v : Option String) (h : match v with | some s => pystrip s = s | none => True) :
    trimStep u key v = u := by
  cases v with
  | none => rfl
  | some s =>
    simp only [trimStep]
    rw [if_neg]
    rintro ⟨-, hne⟩
    exact hne h

theorem validate_book_of_normalized (cfg : FixerConfig) (b : Book)
    (h : normalizedBook cfg b = true) : validate_book cfg b = [] := by
  simp only [normalizedBook, Bool.and_eq_true, List.all_eq_true] at h
  obtain ⟨⟨⟨hreq, h1⟩, h2⟩, h3⟩ := h
  have hfold : ∀ (fields : List String),
      (∀ f ∈ fields, truthy (getField b f) = true) →
      ∀ acc : List (String × FieldValue),
        fields.foldl (requiredFieldStep cfg b) acc = acc := by
    intro fields
    induction fields with
    | nil => intro _ acc; rfl
    | cons f rest ihf =>
      intro hmem acc
      rw [List.foldl_cons]
      have hstep : requiredFieldStep cfg b acc f = acc := by
        simp only [requiredFieldStep]
        rw [if_neg]
        simp [hmem f (List.mem_cons_self f rest)]
      rw [hstep]
      exact ihf (fun g hg => hmem g (List.mem_cons_of_mem f hg)) acc
  simp only [validate_book]
  rw [hfold cfg.required_fields hreq []]
  rw [trimStep_of_stripped _ _ _ ?hAut, trimStep_of_stripped _ _ _ ?hEng,
    trimStep_of_stripped _ _ _ ?hBan]
  case hAut =>
    cases hb : b.author with
    | none => trivial
    | some s => rw [hb] at h3; simpa using h3
  case hEng =>
    cases hb : b.english_title with
    | none => trivial
    | some s => rw [hb] at h2; simpa using h2
  case hBan =>
    cases hb : b.bangla_title with
    | none => trivial
    | some s => rw [hb] at h1; simpa using h1

/-! ### Claim theorems -/

/-- Claim C1: the spec says the smart filter's working set includes every
record whose `last_checked` is absent as well as every record checked
before the cutoff.  The code builds the Firestore query
`where('last_checked', '<', cutoff)`, and a Firestore range filter never
matches a document missing the filtered field, so a never-checked record
is excluded from the working set while an old-checked record is
included — contradicting the claim and the code's own comment that the
query also works for records without the field. -/
theorem claim1_never_checked_excluded :
    get_query_docs {} 10000000 [c1neverBook, c1oldBook] = [c1oldBook] := by decide

/-- Claim C7 counterexample: a final HTTP 204 response (a 2xx status) is
classified `reachable = false` by `check_link`, because the code compares
the status code to 200 exactly. -/
theorem claim7_counterexample :
    check_link t204 (some "https://x.example/a") = (false, some "Status code: 204") := by
  decide

/-- Claim C7 (amended): for a non-empty URL whose probe receives a final
HTTP response with status code `c`, `check_link` classifies the outcome
reachable exactly when `c = 200`; any other final status code (including
other 2xx codes) yields `reachable = false` with detail
`"Status code: c"`. -/
theorem claim7_amended (t : String → HttpResult) (s : String) (c : Nat)
    (hs : s ≠ "") (ht : t s = HttpResult.status c) :
    check_link t (some s) =
      if c = 200 then (true, none)
      else (false, some ("Status code: " ++ toString c)) := by
  simp only [check_link]
  rw [if_neg hs, ht]

/-- Claim C7 witness: `claim7_amended` applied to the HTTP 204 transport. -/
theorem claim7_witness :
    (("https://x.example/a" : String) ≠ "" ∧
      t204 "https://x.example/a" = HttpResult.status 204) ∧
    check_link t204 (some "https://x.example/a") =
      (if 204 = 200 then ((true : Bool), (none : Option String))
       else (false, some ("Status code: " ++ toString 204))) :=
  ⟨⟨by decide, rfl⟩, claim7_amended t204 "https://x.example/a" 204 (by decide) rfl⟩

/-- Claim C9: the Validator is idempotent: on a record that is already
normalized (all required fields non-empty, all text fields trimmed) it
yields an empty edit set, and applying that (empty) edit set and running
it again yields an empty edit set again. -/
theorem claim9_idempotent (cfg : FixerConfig) (b : Book) (n : Nat)
    (h : normalizedBook cfg b = true) :
    validate_book cfg b = [] ∧
      validate_book cfg (applyEdits n b (validate_book cfg b)) = [] := by
  have h1 := validate_book_of_normalized cfg b h
  refine ⟨h1, ?_⟩
  rw [h1]
  exact h1

/-- Claim C9 witness: `claim9_idempotent` applied to a concrete normalized
record. -/
theorem claim9_witness :
    normalizedBook {} c9book = true ∧
    (validate_book {} c9book = [] ∧
      validate_book {} (applyEdits 7 c9book (validate_book {} c9book)) = []) :=
  ⟨by decide, claim9_idempotent {} c9book 7 (by decide)⟩

/-- Claim C10: for every record processed without an unexpected error the
update dictionary contains `last_checked` and `last_fixer_run`, hence is
never empty: a catalog write is issued and `fixed_records` increments for
every such record, and `skipped_records` never changes in any run (with
or without per-record write faults). -/
theorem claim10_always_write (cfg : FixerConfig) (t : String → HttpResult) (nowIso : String)
    (st : FixerStats) (b : Book) :
    "last_checked" ∈ dictKeys (process_book cfg t nowIso false st b).updates ∧
    "last_fixer_run" ∈ dictKeys (process_book cfg t nowIso false st b).updates ∧
    (process_book cfg t nowIso false st b).updates ≠ [] ∧
    (process_book cfg t nowIso false st b).written = true ∧
    (process_book cfg t nowIso false st b).stats.fixed_records = st.fixed_records + 1 ∧
    (process_book cfg t nowIso false st b).stats.skipped_records = st.skipped_records ∧
    ∀ (elapsed : Nat → Nat) (i : Nat) (st0 : FixerStats) (docs : List (Book × Bool)),
      (runDocs cfg t nowIso elapsed i st0 docs).1.skipped_records = st0.skipped_records := by
  obtain ⟨g1, g2, g3, g4, g5, g6⟩ := scanStats_spec t st b
  refine ⟨?_, ?_, ?_, ?_, ?_, ?_, ?_⟩
  · rw [process_book_updates_eq]
    exact (mem_keys_updatesOf cfg t nowIso b "last_checked").mpr (Or.inr (Or.inr (Or.inl rfl)))
  · rw [process_book_updates_eq]
    exact (mem_keys_updatesOf cfg t nowIso b "last_fixer_run").mpr (Or.inr (Or.inr (Or.inr rfl)))
  · rw [process_book_updates_eq]
    exact updatesOf_ne_nil cfg t nowIso b
  · rw [process_book_written_eq]
    rfl
  · rw [process_book_stats_eq, if_neg (show ¬ ((false : Bool) = true) by decide)]
    dsimp only
    rw [g2]
  · rw [process_book_stats_eq, if_neg (show ¬ ((false : Bool) = true) by decide)]
    dsimp only
    rw [g3]
  · intro elapsed i st0 docs
    exact runDocs_skipped cfg t nowIso elapsed docs i st0

/-- Claim C2 counterexample: for the spec's "good URL" record (probe
returns HTTP 200, validator proposes nothing) the edit set is NOT empty
— it still carries `last_checked` and `last_fixer_run` — so the record is
written and counted fixed; the skipped-record counter stays 0 instead of
incrementing as the claim states. -/
theorem claim2_counterexample :
    (process_book {} t200 "2026-02-03T00:00:00" false {} c2book).stats.skipped_records = 0 ∧
    (process_book {} t200 "2026-02-03T00:00:00" false {} c2book).updates ≠ [] ∧
    (process_book {} t200 "2026-02-03T00:00:00" false {} c2book).stats.fixed_records = 1 := by
  decide

/-- Claim C2 (amended): for a record whose URL probe returns HTTP 200,
which was not previously broken and needs no corrective field edit, the
edit set is exactly the two bookkeeping entries `last_checked` and
`last_fixer_run`; therefore a catalog write DOES occur, the fixed-records
counter increments (the skipped counter does not), and `last_checked` is
updated. -/
theorem claim2_amended (cfg : FixerConfig) (t : String → HttpResult) (nowIso : String)
    (st : FixerStats) (b : Book)
    (hu : truthy b.download_url = true)
    (hw : (check_link t b.download_url).1 = true)
    (hb : b.status ≠ some "broken")
    (hv : validate_book cfg b = []) :
    process_book cfg t nowIso false st b =
      { stats := { st with total_scanned := st.total_scanned + 1,
                           working_links := st.working_links + 1,
                           fixed_records := st.fixed_records + 1 },
        updates := [("last_checked", FieldValue.serverTimestamp),
                    ("last_fixer_run", FieldValue.str nowIso)],
        written := true } := by
  have hle : linkEdits t b = [] := linkEdits_working_not_broken t b hw hb
  have hupd : updatesOf cfg t nowIso b =
      [("last_checked", FieldValue.serverTimestamp),
       ("last_fixer_run", FieldValue.str nowIso)] := by
    simp only [updatesOf, hle, hv]
    rfl
  have hlo : linkOutcome t b = some true := by
    simp only [linkOutcome]
    rw [if_pos hu, hw]
  simp only [process_book, hupd]
  rw [if_neg (by simp : ¬ ([("last_checked", FieldValue.serverTimestamp),
        ("last_fixer_run", FieldValue.str nowIso)] = [])),
    if_neg (show ¬ ((false : Bool) = true) by decide),
    scanStats_some_true t st b hlo]

/-- Claim C2 witness: `claim2_amended` applied to the concrete good-URL
record and the HTTP 200 transport. -/
theorem claim2_witness :
    (truthy c2book.download_url = true ∧ (check_link t200 c2book.download_url).1 = true ∧
      c2book.status ≠ some "broken" ∧ validate_book {} c2book = []) ∧
    process_book {} t200 "2026-02-03T00:00:00" false {} c2book =
      { stats := { total_scanned := 1, working_links := 1, fixed_records := 1 },
        updates := [("last_checked", FieldValue.serverTimestamp),
                    ("last_fixer_run", FieldValue.str "2026-02-03T00:00:00")],
        written := true } :=
  ⟨⟨by decide, by decide, by decide, by decide⟩,
    claim2_amended {} t200 "2026-02-03T00:00:00" {} c2book (by decide) (by decide)
      (by decide) (by decide)⟩

/-- Claim C3 counterexample: for the spec's empty-URL record, the engine
never invokes the prober — the edit set contains neither `status` nor
`error_message`, and neither the broken-link counter nor the working-link
counter moves, contradicting the claimed `status = "broken"` edit and the
unreachable accounting. -/
theorem claim3_counterexample :
    dictLookup "status" (process_book {} t200 "2026-02-03T00:00:00" false {} c3book).updates
        = none ∧
    dictLookup "error_message"
        (process_book {} t200 "2026-02-03T00:00:00" false {} c3book).updates = none ∧
    (process_book {} t200 "2026-02-03T00:00:00" false {} c3book).stats.broken_links = 0 ∧
    (process_book {} t200 "2026-02-03T00:00:00" false {} c3book).stats.working_links = 0 := by
  decide

/-- Claim C3 (amended): `check_link` on an absent or empty URL does return
`(false, "URL missing")` without consulting the transport, but
`process_book` never calls it for such a record: neither `working_links`
nor `broken_links` changes, the edit set contains no `error_message` key,
and (when the prior `status` is non-empty) no `status` key either. -/
theorem claim3_amended (cfg : FixerConfig) (t : String → HttpResult) (nowIso : String)
    (f : Bool) (st : FixerStats) (b : Book)
    (hu : truthy b.download_url = false) :
    check_link t none = (false, some "URL missing") ∧
    check_link t (some "") = (false, some "URL missing") ∧
    (process_book cfg t nowIso f st b).stats.working_links = st.working_links ∧
    (process_book cfg t nowIso f st b).stats.broken_links = st.broken_links ∧
    (truthy b.status = true →
      dictLookup "status" (process_book cfg t nowIso f st b).updates = none) ∧
    dictLookup "error_message" (process_book cfg t nowIso f st b).updates = none := by
  have hlo : linkOutcome t b = none := by
    simp only [linkOutcome]
    rw [if_neg (by simp [hu])]
  have hle : linkEdits t b = [] := by
    simp only [linkEdits]
    rw [if_neg (by simp [hu])]
  have hstats := process_book_stats_eq cfg t nowIso f st b
  rw [scanStats_none t st b hlo] at hstats
  refine ⟨rfl, rfl, ?_, ?_, ?_, ?_⟩
  · rw [hstats]
    split_ifs <;> rfl
  · rw [hstats]
    split_ifs <;> rfl
  · intro hs
    rw [process_book_updates_eq, lookup_updatesOf_status,
      if_neg (by simp [hs] : ¬ ("status" ∈ cfg.required_fields ∧ truthy b.status = false)),
      hle]
    rfl
  · rw [process_book_updates_eq]
    simp only [updatesOf]
    rw [dictLookup_dictInsert_ne _ _ _ _ (by decide),
      dictLookup_dictInsert_ne _ _ _ _ (by decide),
      dictLookup_dictUpdate _ _ _ (nodup_keys_validate cfg b),
      lookup_validate_other cfg b "error_message" (by decide) (by decide) (by decide)
        (by decide) (by decide)]
    show dictLookup "error_message" (linkEdits t b) = none
    rw [hle]
    rfl

/-- Claim C3 witness: `claim3_amended` applied to the concrete empty-URL
record. -/
theorem claim3_witness :
    truthy c3book.download_url = false ∧
    (check_link t200 none = (false, some "URL missing") ∧
      check_link t200 (some "") = (false, some "URL missing") ∧
      (process_book {} t200 "2026-02-03T00:00:00" false {} c3book).stats.working_links
        = ({} : FixerStats).working_links ∧
      (process_book {} t200 "2026-02-03T00:00:00" false {} c3book).stats.broken_links
        = ({} : FixerStats).broken_links ∧
      (truthy c3book.status = true →
        dictLookup "status"
          (process_book {} t200 "2026-02-03T00:00:00" false {} c3book).updates = none) ∧
      dictLookup "error_message"
        (process_book {} t200 "2026-02-03T00:00:00" false {} c3book).updates = none) :=
  ⟨by decide, claim3_amended {} t200 "2026-02-03T00:00:00" false {} c3book (by decide)⟩

/-- Claim C6 counterexample: a record with a reachable URL whose prior
`status` is absent (hence "not broken") still gets a `status` key in its
edit set — the validator defaults the missing status — contradicting the
claim that the edit set never contains `status` for such records. -/
theorem claim6_counterexample :
    (check_link t200 c6book.download_url).1 = true ∧
    c6book.status ≠ some "broken" ∧
    "status" ∈ dictKeys (process_book {} t200 "2026-02-03T00:00:00" false {} c6book).updates := by
  decide

/-- Claim C6 (amended): for every record whose URL probe succeeds and
whose prior `status` is present, non-empty and not `"broken"`, the merged
edit set contains no `status` key. -/
theorem claim6_amended (cfg : FixerConfig) (t : String → HttpResult) (nowIso : String)
    (f : Bool) (st : FixerStats) (b : Book)
    (hw : (check_link t b.download_url).1 = true)
    (hb : b.status ≠ some "broken")
    (hs : truthy b.status = true) :
    "status" ∉ dictKeys (process_book cfg t nowIso f st b).updates := by
  rw [process_book_updates_eq]
  intro hmem
  rcases (mem_keys_updatesOf cfg t nowIso b "status").mp hmem with h1 | h2 | h3 | h4
  · rw [linkEdits_working_not_broken t b hw hb] at h1
    simp [dictKeys] at h1
  · have hnone : dictLookup "status" (validate_book cfg b) = none := by
      rw [lookup_validate_status, if_neg (fun hcon => by simp [hs] at hcon)]
    exact absurd h2 ((dictLookup_eq_none_iff _ _).mp hnone)
  · exact absurd h3 (by decide)
  · exact absurd h4 (by decide)

/-- Claim C6 witness: `claim6_amended` applied to a record with a working
URL and a non-empty, non-broken prior status. -/
theorem claim6_witness :
    ((check_link t200 c2book.download_url).1 = true ∧ c2book.status ≠ some "broken" ∧
      truthy c2book.status = true) ∧
    "status" ∉ dictKeys (process_book {} t200 "2026-02-04T00:00:00" false {} c2book).updates :=
  ⟨⟨by decide, by decide, by decide⟩,
    claim6_amended {} t200 "2026-02-04T00:00:00" false {} c2book (by decide) (by decide)
      (by decide)⟩

/-- Claim C4 counterexample: a one-record run over a record with a working
link whose catalog write faults ends with `working_links = 1`,
`errors = 1`, `total_scanned = 1`, so
`working_links + broken_links + errors = 2 > 1 = total_scanned`: the
claimed first inequality fails (the second, bucket equality, still
holds at this input). -/
theorem claim4_counterexample :
    ¬ (((runDocs {} t200 "2026-02-03" (fun _ => 0) 0 {} [(c4book, true)]).1.working_links
          + (runDocs {} t200 "2026-02-03" (fun _ => 0) 0 {} [(c4book, true)]).1.broken_links
          + (runDocs {} t200 "2026-02-03" (fun _ => 0) 0 {} [(c4book, true)]).1.errors
        ≤ (runDocs {} t200 "2026-02-03" (fun _ => 0) 0 {} [(c4book, true)]).1.total_scanned) ∧
       (runDocs {} t200 "2026-02-03" (fun _ => 0) 0 {} [(c4book, true)]).1.fixed_records
          + (runDocs {} t200 "2026-02-03" (fun _ => 0) 0 {} [(c4book, true)]).1.skipped_records
          + (runDocs {} t200 "2026-02-03" (fun _ => 0) 0 {} [(c4book, true)]).1.errors
        = (runDocs {} t200 "2026-02-03" (fun _ => 0) 0 {} [(c4book, true)]).1.total_scanned) := by
  decide

/-- Claim C4 (amended): for every run of the scheduler over any set of
records (with any pattern of per-record write faults and any elapsed-time
trace), the final statistics satisfy
`working_links + broken_links ≤ total_scanned` and
`fixed_records + skipped_records + errors = total_scanned`.  The original
first inequality with `+ errors` on the left fails because a record whose
link was already classified can additionally fault during the catalog
write, landing in a link bucket and in the error bucket. -/
theorem claim4_amended (cfg : FixerConfig) (t : String → HttpResult) (nowIso : String)
    (elapsed : Nat → Nat) (docs : List (Book × Bool)) :
    (runDocs cfg t nowIso elapsed 0 {} docs).1.working_links
        + (runDocs cfg t nowIso elapsed 0 {} docs).1.broken_links
      ≤ (runDocs cfg t nowIso elapsed 0 {} docs).1.total_scanned ∧
    (runDocs cfg t nowIso elapsed 0 {} docs).1.fixed_records
        + (runDocs cfg t nowIso elapsed 0 {} docs).1.skipped_records
        + (runDocs cfg t nowIso elapsed 0 {} docs).1.errors
      = (runDocs cfg t nowIso elapsed 0 {} docs).1.total_scanned := by
  obtain ⟨h1, h2⟩ := runDocs_counts cfg t nowIso elapsed docs 0 {}
  have e0 : ({} : FixerStats).total_scanned = 0 := rfl
  have e1 : ({} : FixerStats).working_links = 0 := rfl
  have e2 : ({} : FixerStats).broken_links = 0 := rfl
  have e3 : ({} : FixerStats).fixed_records = 0 := rfl
  have e4 : ({} : FixerStats).skipped_records = 0 := rfl
  have e5 : ({} : FixerStats).errors = 0 := rfl
  constructor <;> omega

/-- Claim C5 counterexample: a record whose `bangla_title` is present but
empty keeps an empty `bangla_title` after reconciliation — the validator
only supplies defaults for `category` and `status` — so the claimed
non-emptiness of all four required fields after reconciliation fails. -/
theorem claim5_counterexample :
    truthy (applyEdits 1000 c5book
      (process_book {} t200 "2026-02-03T00:00:00" false {} c5book).updates).bangla_title
      = false := by
  decide

/-- Claim C5 (amended): after reconciliation (applying the merged edit set
computed for the record), `category` and `status` are non-empty — the
engine defaults them when missing or empty — and the engine never
fabricates a download URL: the computed edit set contains no
`download_url` key at all, so applying it (with full Firestore
field-update semantics, which could set `download_url` if the key were
present) leaves `download_url` exactly as it was.  `bangla_title` and
`download_url` receive no default and may remain empty. -/
theorem claim5_amended (cfg : FixerConfig) (t : String → HttpResult) (nowIso : String)
    (f : Bool) (st : FixerStats) (b : Book) (n : Nat)
    (hreq : cfg.required_fields = ["bangla_title", "category", "download_url", "status"])
    (hcat : cfg.default_category ≠ "")
    (hstat : cfg.default_status ≠ "") :
    truthy (applyEdits n b (process_book cfg t nowIso f st b).updates).category = true ∧
    truthy (applyEdits n b (process_book cfg t nowIso f st b).updates).status = true ∧
    "download_url" ∉ dictKeys (process_book cfg t nowIso f st b).updates ∧
    (applyEdits n b (process_book cfg t nowIso f st b).updates).download_url
      = b.download_url := by
  rw [process_book_updates_eq]
  have hnd := nodup_keys_updatesOf cfg t nowIso b
  refine ⟨?_, ?_, download_url_not_mem_updatesOf cfg t nowIso b,
    applyEdits_download_url_not_mem n _ b (download_url_not_mem_updatesOf cfg t nowIso b)⟩
  · by_cases ht : truthy b.category = false
    · have hmem : "category" ∈ cfg.required_fields := by rw [hreq]; decide
      have hl : dictLookup "category" (updatesOf cfg t nowIso b)
          = some (FieldValue.str cfg.default_category) := by
        rw [lookup_updatesOf_category, if_pos ⟨hmem, ht⟩]
      rw [applyEdits_category_lookup n _ b cfg.default_category hnd hl]
      simpa [truthy] using hcat
    · have hl : dictLookup "category" (updatesOf cfg t nowIso b) = none := by
        rw [lookup_updatesOf_category, if_neg (fun hcon => ht hcon.2)]
      rw [applyEdits_category_not_mem n _ b ((dictLookup_eq_none_iff _ _).mp hl)]
      revert ht
      cases truthy b.category <;> simp
  · by_cases ht : truthy b.status = false
    · have hmem : "status" ∈ cfg.required_fields := by rw [hreq]; decide
      have hl : dictLookup "status" (updatesOf cfg t nowIso b)
          = some (FieldValue.str cfg.default_status) := by
        rw [lookup_updatesOf_status, if_pos ⟨hmem, ht⟩]
      rw [applyEdits_status_lookup n _ b cfg.default_status hnd hl]
      simpa [truthy] using hstat
    · have hl0 : dictLookup "status" (updatesOf cfg t nowIso b)
          = dictLookup "status" (linkEdits t b) := by
        rw [lookup_updatesOf_status, if_neg (fun hcon => ht hcon.2)]
      rcases lookup_linkEdits_status t b with hn | hbr | hpu
      · rw [applyEdits_status_not_mem n _ b
          ((dictLookup_eq_none_iff _ _).mp (hl0.trans hn))]
        revert ht
        cases truthy b.status <;> simp
      · rw [applyEdits_status_lookup n _ b "broken" hnd (hl0.trans hbr)]
        decide
      · rw [applyEdits_status_lookup n _ b "published" hnd (hl0.trans hpu)]
        decide

/-- Claim C5 witness: `claim5_amended` applied to a record with an absent
`status` and the default configuration. -/
theorem claim5_witness :
    (({} : FixerConfig).required_fields
        = ["bangla_title", "category", "download_url", "status"] ∧
      ({} : FixerConfig).default_category ≠ "" ∧ ({} : FixerConfig).default_status ≠ "") ∧
    (truthy (applyEdits 1000 c6book
        (process_book {} t200 "2026-02-05T00:00:00" false {} c6book).updates).category
        = true ∧
      truthy (applyEdits 1000 c6book
        (process_book {} t200 "2026-02-05T00:00:00" false {} c6book).updates).status
        = true ∧
      "download_url" ∉ dictKeys
        (process_book {} t200 "2026-02-05T00:00:00" false {} c6book).updates ∧
      (applyEdits 1000 c6book
        (process_book {} t200 "2026-02-05T00:00:00" false {} c6book).updates).download_url
        = c6book.download_url) :=
  ⟨⟨rfl, by decide, by decide⟩,
    claim5_amended {} t200 "2026-02-05T00:00:00" false {} c6book 1000 rfl (by decide)
      (by decide)⟩

/-- Claim C8: in every run (the serial and parallel loops share this
dispatch logic), once the elapsed wall-clock time observed before some
dispatch position `i` has reached `max_execution_time`, the number of
dispatched records is at most `i` (no record at or after that position is
ever dispatched), the run's `timeout_stop` flag is set, and the error
counter equals that of processing exactly the dispatched prefix — the
stop itself is not counted as an error. -/
theorem claim8_deadline (cfg : FixerConfig) (t : String → HttpResult) (nowIso : String)
    (elapsed : Nat → Nat) (docs : List (Book × Bool)) (st : FixerStats) (i : Nat)
    (hi : i < docs.length) (hm : cfg.max_execution_time ≤ elapsed i) :
    (runDocs cfg t nowIso elapsed 0 st docs).2 ≤ i ∧
    (runDocs cfg t nowIso elapsed 0 st docs).1.timeout_stop = true ∧
    (runDocs cfg t nowIso elapsed 0 st docs).1.errors =
      (processAll cfg t nowIso st
        (docs.take (runDocs cfg t nowIso elapsed 0 st docs).2)).errors := by
  obtain ⟨s1, s2, s3, s4⟩ := runDocs_dispatch_spec cfg t nowIso elapsed docs 0 st
  have hk : (runDocs cfg t nowIso elapsed 0 st docs).2 ≤ i := by
    by_contra hgt
    push_neg at hgt
    have h2 := s2 i hgt
    rw [Nat.zero_add] at h2
    omega
  have hklt : (runDocs cfg t nowIso elapsed 0 st docs).2 < docs.length :=
    Nat.lt_of_le_of_lt hk hi
  obtain ⟨hstop, hstats⟩ := s3 hklt
  refine ⟨hk, ?_, ?_⟩
  · rw [hstats]
  · rw [hstats]

/-- Claim C8 witness: `claim8_deadline` with a one-unit budget and an
elapsed-time trace already past it: nothing is dispatched and the
timeout flag is set. -/
theorem claim8_witness :
    ((0 : Nat) < ([(c8book, false)] : List (Book × Bool)).length ∧
      ({ max_execution_time := 1 } : FixerConfig).max_execution_time
        ≤ (fun _ : Nat => 5) 0) ∧
    ((runDocs { max_execution_time := 1 } t200 "2026-02-03" (fun _ => 5) 0 {}
        [(c8book, false)]).2 ≤ 0 ∧
      (runDocs { max_execution_time := 1 } t200 "2026-02-03" (fun _ => 5) 0 {}
        [(c8book, false)]).1.timeout_stop = true ∧
      (runDocs { max_execution_time := 1 } t200 "2026-02-03" (fun _ => 5) 0 {}
          [(c8book, false)]).1.errors =
        (processAll { max_execution_time := 1 } t200 "2026-02-03" {}
          (([(c8book, false)] : List (Book × Bool)).take
            (runDocs { max_execution_time := 1 } t200 "2026-02-03" (fun _ => 5) 0 {}
              [(c8book, false)]).2)).errors) :=
  ⟨⟨by decide, by decide⟩,
    claim8_deadline { max_execution_time := 1 } t200 "2026-02-03" (fun _ => 5)
      [(c8book, false)] {} 0 (by decide) (by decide)⟩
